import Mathlib

/-!
Verification of the window-management subsystem, resize/drag geometry,
sticky-note loading and mood persistence of the PortfolioOS single-page
desktop application. Definitions are shallow embeddings of the JavaScript
source (`PortfolioOS` class): JS `Set` objects become duplicate-free lists
in insertion order, the DOM's set of elements carrying the `active` class
becomes a membership list filtered through the fixed document order, and
inline `z-index` styles become an association list updated per element.
-/

namespace PortfolioOS

/-- JS `Set.add`: appends the element unless already present
(insertion-order semantics of a JavaScript `Set`). -/
def jsSetAdd (s : List String) (x : String) : List String :=
  if x ∈ s then s else s ++ [x]

/-- JS `Set.delete`: removes the element (a JS `Set` holds it at most once). -/
def jsSetDelete (s : List String) (x : String) : List String :=
  s.filter (fun y => y ≠ x)

/-- State of the window manager, embedding the fields of the `PortfolioOS`
class that the window-management subsystem reads and writes.
`activeClass` is the set of window ids whose DOM element currently carries
the `active` class (i.e. is shown); `activeWindows` is `this.activeWindows`;
`layerOrder` is `this.windowLayerOrder`; `recentlyClosed` is
`this.recentlyClosedWindows`; `zmap` records the inline `z-index` style of
each element; `focused` is the id carrying the `focused` class; the three
popup flags record whether a `.rename-popup`, `.delete-popup` or
`.remove-note-popup` element is present in the document. -/
structure OSState where
  activeClass : List String
  activeWindows : List String
  layerOrder : List String
  recentlyClosed : List String
  focused : Option String
  zmap : List (String × Nat)
  windowZIndex : Nat
  renamePopup : Bool
  deletePopup : Bool
  removeNotePopup : Bool
deriving Repr, DecidableEq

/-- The document's `querySelector('.rename-popup, .delete-popup, .remove-note-popup')`
is non-null exactly when one of the three popups is visible. -/
def popupVisible (s : OSState) : Bool :=
  s.renamePopup || s.deletePopup || s.removeNotePopup

/-- The windows matched by `querySelectorAll('.window.active', ...)`:
document order (`dom`) filtered to the ids carrying the `active` class. -/
def visibleIds (dom : List String) (s : OSState) : List String :=
  dom.filter (fun id => id ∈ s.activeClass)

/-- Embeds `windowElement.style.setProperty` for z-index: update the entry for
`id` in place, or append it if the element had no inline z-index yet. -/
def setEntry : List (String × Nat) → String → Nat → List (String × Nat)
  | [], id, z => [(id, z)]
  | p :: rest, id, z => if p.1 = id then (id, z) :: rest else p :: setEntry rest id z

/-- Read an element's inline style entry (first binding wins). -/
def lookupEntry (zs : List (String × Nat)) (id : String) : Option Nat :=
  (zs.find? (fun p => p.1 = id)).map (fun p => p.2)

/-- The `forEach((windowId, index) => ... zIndex = baseZIndex + index * 10 ...)`
loop of `recalculateWindowLayers`: assign `100000 + idx * 10` to the head,
then continue with `idx + 1`. -/
def assignZ (zs : List (String × Nat)) : List String → Nat → List (String × Nat)
  | [], _ => zs
  | id :: rest, idx => assignZ (setEntry zs id (100000 + idx * 10)) rest (idx + 1)

/-- The append loop of `recalculateWindowLayers`: for each visible window,
push its id onto the layer order if not already included (the membership
test runs against the list as mutated so far). -/
def appendMissing (lo : List String) : List String → List String
  | [] => lo
  | id :: rest => appendMissing (if id ∈ lo then lo else lo ++ [id]) rest

/-- Embeds `PortfolioOS.recalculateWindowLayers`: no-op while a popup is visible;
otherwise prune layer-order ids whose window is no longer active, append
active windows missing from the order (in document order), then assign
`z-index = 100000 + index * 10` along the order and bump the counter. -/
def recalculateWindowLayers (dom : List String) (s : OSState) : OSState :=
  if popupVisible s then s
  else
    let vis := visibleIds dom s
    let kept := s.layerOrder.filter (fun id => id ∈ vis)
    let lo := appendMissing kept vis
    { s with layerOrder := lo
             zmap := assignZ s.zmap lo 0
             windowZIndex := 100000 + lo.length * 10 }

/-- Embeds `PortfolioOS.bringWindowToFront`: add the `active` class, splice the id
out of the layer order, push it on top, recalculate all z-indices, and move
the `focused` class to the target. -/
def bringWindowToFront (dom : List String) (s : OSState) (id : String) : OSState :=
  let s₁ := { s with activeClass := jsSetAdd s.activeClass id
                     layerOrder := s.layerOrder.erase id ++ [id] }
  let s₂ := recalculateWindowLayers dom s₁
  { s₂ with focused := some id }

/-- Embeds `PortfolioOS.focusWindow`: refuse to focus a recently closed window,
otherwise bring it to front (and apply the `focused` class). -/
def focusWindow (dom : List String) (s : OSState) (id : String) : OSState :=
  if id ∈ s.recentlyClosed then s
  else bringWindowToFront dom s id

/-- Embeds `PortfolioOS.openWindow`: no-op when the element is absent or the app
was just closed; focus it when already open; otherwise register it in
`activeWindows`, show it (`classList.add('active')`) and focus it. -/
def openWindow (dom : List String) (s : OSState) (app : String) : OSState :=
  if app ∉ dom then s
  else if app ∈ s.recentlyClosed then s
  else if app ∈ s.activeWindows then focusWindow dom s app
  else
    let s₁ := { s with activeWindows := jsSetAdd s.activeWindows app
                       activeClass := jsSetAdd s.activeClass app }
    focusWindow dom s₁ app

/-- Embeds `PortfolioOS.closeWindow`: splice the id out of the layer order, drop it
from `activeWindows`, remove the `active` class, recalculate the remaining
layers, then add the app to `recentlyClosedWindows` (its timed removal is
the separate `elapseCooldown`). -/
def closeWindow (dom : List String) (s : OSState) (id : String) : OSState :=
  if id ∉ dom then s
  else
    let s₁ := { s with layerOrder := s.layerOrder.erase id
                       activeWindows := jsSetDelete s.activeWindows id
                       activeClass := jsSetDelete s.activeClass id }
    let s₂ := recalculateWindowLayers dom s₁
    { s₂ with recentlyClosed := jsSetAdd s₂.recentlyClosed id }

/-- The `setTimeout(..., 200)` body scheduled by `closeWindow`: remove the
app from `recentlyClosedWindows` once the cooldown elapses. -/
def elapseCooldown (s : OSState) (id : String) : OSState :=
  { s with recentlyClosed := jsSetDelete s.recentlyClosed id }

/-- Embeds `PortfolioOS.minimizeWindow` (after its 400ms animation timeout fires):
remove the `active` class and drop the app from `activeWindows`. It touches
neither the layer order nor `recentlyClosedWindows`. -/
def minimizeWindow (dom : List String) (s : OSState) (id : String) : OSState :=
  if id ∉ dom then s
  else { s with activeClass := jsSetDelete s.activeClass id
                activeWindows := jsSetDelete s.activeWindows id }

/-- The operations of the window-manager state machine: opening, closing,
focusing (guarded) and raw bring-to-front (the drag-start path), minimizing,
and the firing of a close-suppression cooldown timer. -/
inductive WinOp where
  | openWin (a : String)
  | closeWin (a : String)
  | focusWin (a : String)
  | toFront (a : String)
  | minimizeWin (a : String)
  | elapse (a : String)
deriving Repr, DecidableEq

/-- Whether an operation is a minimize. -/
def WinOp.isMinimize : WinOp → Bool
  | .minimizeWin _ => true
  | _ => false

/-- One step of the state machine. `focusWin`/`toFront`/`minimizeWin` are
no-ops when the element does not exist (`document.querySelector` null). -/
def step (dom : List String) (s : OSState) : WinOp → OSState
  | .openWin a => openWindow dom s a
  | .closeWin a => closeWindow dom s a
  | .focusWin a => if a ∈ dom then focusWindow dom s a else s
  | .toFront a => if a ∈ dom then bringWindowToFront dom s a else s
  | .minimizeWin a => minimizeWindow dom s a
  | .elapse a => elapseCooldown s a

/-- Constructor state of `PortfolioOS`: empty sets, empty layer order,
`windowZIndex = 1000`, no popups. -/
def initState : OSState :=
  { activeClass := []
    activeWindows := []
    layerOrder := []
    recentlyClosed := []
    focused := none
    zmap := []
    windowZIndex := 1000
    renamePopup := false
    deletePopup := false
    removeNotePopup := false }

/-- Run a sequence of operations from the constructor state. -/
def run (dom : List String) (ops : List WinOp) : OSState :=
  ops.foldl (step dom) initState

/-! ### Window geometry: `setupResizeHandle` and `setupRegularWindowDragging` -/

/-- Window geometry in CSS pixels: `left`/`top` position and
`width`/`height` size, as read from `getBoundingClientRect()` at gesture
start and written back through `style.left/top/width/height`. -/
structure Geometry where
  left : Int
  top : Int
  width : Int
  height : Int
deriving Repr, DecidableEq

/-- The eight resize-handle classes created by `addResizeHandles`. -/
inductive HandleClass where
  | n | s | e | w | ne | nw | se | sw
deriving Repr, DecidableEq

/-- The `handleMouseMove` body of `PortfolioOS.setupResizeHandle`: from the
gesture-start geometry `g` and pointer delta `(dx, dy)`, compute the new
geometry per handle direction (`Math.max(300, ...)` width clamp,
`Math.max(200, ...)` height clamp, edge handles shifting `left`/`top` by
the size change), then clamp the result below the 40px taskbar, shrinking
the height by the adjustment and re-clamping it to 200. -/
def resizeUpdate (hc : HandleClass) (g : Geometry) (dx dy : Int) : Geometry :=
  let r : Int × Int × Int × Int :=
    match hc with
    | .e => (max 300 (g.width + dx), g.height, g.left, g.top)
    | .w =>
      let w := max 300 (g.width - dx)
      (w, g.height, g.left + (g.width - w), g.top)
    | .s => (g.width, max 200 (g.height + dy), g.left, g.top)
    | .n =>
      let h := max 200 (g.height - dy)
      (g.width, h, g.left, g.top + (g.height - h))
    | .se => (max 300 (g.width + dx), max 200 (g.height + dy), g.left, g.top)
    | .sw =>
      let w := max 300 (g.width - dx)
      (w, max 200 (g.height + dy), g.left + (g.width - w), g.top)
    | .ne =>
      let h := max 200 (g.height - dy)
      (max 300 (g.width + dx), h, g.left, g.top + (g.height - h))
    | .nw =>
      let w := max 300 (g.width - dx)
      let h := max 200 (g.height - dy)
      (w, h, g.left + (g.width - w), g.top + (g.height - h))
  let newWidth := r.1
  let newHeight := r.2.1
  let newLeft := r.2.2.1
  let newTop := r.2.2.2
  if newTop < 40 then
    { left := newLeft, top := 40, width := newWidth
      height := max 200 (newHeight - (40 - newTop)) }
  else
    { left := newLeft, top := newTop, width := newWidth, height := newHeight }

/-- The dragging `requestAnimationFrame` body of
`PortfolioOS.setupRegularWindowDragging`: move by the pointer delta and
keep the top edge at or below the 40px taskbar
(`newTop = Math.max(40, newTop)`); size is untouched. -/
def dragUpdate (g : Geometry) (dx dy : Int) : Geometry :=
  { g with left := g.left + dx, top := max 40 (g.top + dy) }

/-- One completed pointer gesture: a window drag or a resize from one of
the eight handles, identified by its total pointer delta. -/
inductive Gesture where
  | drag (dx dy : Int)
  | resize (hc : HandleClass) (dx dy : Int)
deriving Repr, DecidableEq

/-- Apply a gesture's final update to a geometry. Every intermediate
pointer-move update of the same gesture is the same function at a smaller
delta, since the handlers always compute from the gesture-start geometry. -/
def applyGesture (g : Geometry) : Gesture → Geometry
  | .drag dx dy => dragUpdate g dx dy
  | .resize hc dx dy => resizeUpdate hc g dx dy

/-- Apply a sequence of gestures, each starting from the previous result. -/
def runGestures (g : Geometry) (gs : List Gesture) : Geometry :=
  gs.foldl applyGesture g

/-- The clamp bounds maintained by drag and resize: minimum width 300,
minimum height 200, top at or below the 40px taskbar offset. -/
def GeomOK (g : Geometry) : Prop :=
  300 ≤ g.width ∧ 200 ≤ g.height ∧ 40 ≤ g.top

instance (g : Geometry) : Decidable (GeomOK g) := by
  unfold GeomOK; infer_instance

/-! ### Sticky notes: `loadStickyNotes` and `autoSaveNote` -/

/-- One record of the `sticky-notes` array in local storage. `timestamp = 0`
models a falsy (absent) timestamp; `isFolder` models `type === 'folder'`. -/
structure StickyNote where
  id : Nat
  timestamp : Nat
  pinned : Bool
  isFolder : Bool
  content : String
  textContent : String
  lastUpdated : String
deriving Repr, DecidableEq

/-- The timestamp back-fill loop of `loadStickyNotes`:
`if (!note.timestamp) note.timestamp = note.id || Date.now()`. -/
def ensureTimestamp (now : Nat) (n : StickyNote) : StickyNote :=
  if n.timestamp = 0 then
    { n with timestamp := if n.id = 0 then now else n.id }
  else n

/-- The sort key used by both comparators of `loadStickyNotes`:
`a.timestamp || a.id || 0`. -/
def noteKey (n : StickyNote) : Nat :=
  if n.timestamp ≠ 0 then n.timestamp else if n.id ≠ 0 then n.id else 0

/-- Insert a note into a list sorted by strictly decreasing `noteKey`,
after any already-present note of equal key (stable placement). -/
def insertDesc (n : StickyNote) : List StickyNote → List StickyNote
  | [] => [n]
  | m :: rest =>
    if noteKey m < noteKey n then n :: m :: rest else m :: insertDesc n rest

/-- The `sort((a, b) => timestampB - timestampA)` calls of
`loadStickyNotes`: a stable sort by decreasing timestamp key (JS
`Array.prototype.sort` is stable, and stability determines the result of
this comparator uniquely). -/
def sortDesc : List StickyNote → List StickyNote
  | [] => []
  | n :: rest => insertDesc n (sortDesc rest)

/-- The pinned group computed by `loadStickyNotes`: back-fill timestamps,
drop folder records, keep pinned notes and sort them newest-first. -/
def loadStickyNotesPinned (now : Nat) (store : List StickyNote) : List StickyNote :=
  let withTs := store.map (ensureTimestamp now)
  let notes := withTs.filter (fun n => !n.isFolder)
  let pinned := notes.filter (fun n => n.pinned)
  sortDesc pinned

/-- The `findIndex` + in-place update of `autoSaveNote` for an existing
note: update the first record with the given id, leave the rest alone. -/
def updateNoteById (store : List StickyNote) (noteId : Nat)
    (f : StickyNote → StickyNote) : List StickyNote :=
  match store with
  | [] => []
  | n :: rest =>
    if n.id = noteId then f n :: rest
    else n :: updateNoteById rest noteId f

/-- The existing-note branch of `PortfolioOS.autoSaveNote`: overwrite
`content`, `lastUpdated`, `textContent` and `pinned` of the stored record
with the note window's current values (the creation `id` and `timestamp`
are never touched). -/
def autoSaveUpdate (store : List StickyNote) (noteId : Nat)
    (content textContent lastUpdated : String) (isPinned : Bool) : List StickyNote :=
  updateNoteById store noteId (fun n =>
    { n with content := content
             lastUpdated := lastUpdated
             textContent := textContent
             pinned := isPinned })

/-! ### Mood tracker persistence: `getMoodData` and `saveTodaysMood` -/

/-- The raw `moodTrackerData` value in local storage: absent
(`getItem` returns null), present but malformed (`JSON.parse` throws), or a
well-formed JSON object of date-key/mood-index entries. -/
inductive StoredMood where
  | absent
  | malformed
  | valid (entries : List (String × Nat))
deriving Repr, DecidableEq

/-- Embeds `PortfolioOS.getMoodData`: `{}` when the key is absent, the parsed
object when well-formed, and `{}` from the catch branch when `JSON.parse`
throws on a malformed value. -/
def getMoodData : StoredMood → List (String × Nat)
  | .absent => []
  | .malformed => []
  | .valid entries => entries

/-- The date key built by `saveTodaysMood`: year, then `getMonth() + 1`
with `month` 0-based as returned by `getMonth()`, then day, joined by
dashes; `Nat` rendering is non-zero-padded exactly like JS number
interpolation. -/
def dateKey (year month day : Nat) : String :=
  toString year ++ "-" ++ toString (month + 1) ++ "-" ++ toString day

/-- Embeds `PortfolioOS.saveTodaysMood`: read the stored mapping (empty on absence
or corruption), set today's entry to the mood index, and write the mapping
back as JSON. Total — the JS body wraps everything in try/catch. -/
def saveTodaysMood (st : StoredMood) (today : String) (moodIndex : Nat) : StoredMood :=
  .valid (setEntry (getMoodData st) today moodIndex)

/-! ### Invariants of the window manager -/

/-- Structural invariant of reachable window-manager states: no popup
element is mounted, the layer order is duplicate-free, and every visible
window id occurs in the layer order. -/
def Inv (dom : List String) (s : OSState) : Prop :=
  popupVisible s = false ∧ s.layerOrder.Nodup ∧
    ∀ id ∈ visibleIds dom s, id ∈ s.layerOrder

/-- The layer order holds exactly the visible window ids. -/
def LayerMatches (dom : List String) (s : OSState) : Prop :=
  ∀ id, id ∈ s.layerOrder ↔ id ∈ visibleIds dom s

/-! ### Lemmas: JS set and association-list operations -/

theorem mem_jsSetAdd {s : List String} {x y : String} :
    x ∈ jsSetAdd s y ↔ x ∈ s ∨ x = y := by
  by_cases h : y ∈ s
  · simp only [jsSetAdd, if_pos h]
    constructor
    · exact Or.inl
    · rintro (hx | rfl)
      · exact hx
      · exact h
  · simp [jsSetAdd, if_neg h]

theorem mem_jsSetDelete {s : List String} {x y : String} :
    x ∈ jsSetDelete s y ↔ x ∈ s ∧ x ≠ y := by
  simp [jsSetDelete, List.mem_filter]

theorem jsSetAdd_of_mem {s : List String} {x : String} (h : x ∈ s) :
    jsSetAdd s x = s := by
  simp [jsSetAdd, h]

theorem mem_visibleIds {dom : List String} {s : OSState} {id : String} :
    id ∈ visibleIds dom s ↔ id ∈ dom ∧ id ∈ s.activeClass := by
  simp [visibleIds, List.mem_filter]

theorem nodup_visibleIds (dom : List String) (s : OSState) (hd : dom.Nodup) :
    (visibleIds dom s).Nodup :=
  hd.filter _

theorem mem_appendMissing {x : String} :
    ∀ (vs lo : List String), x ∈ appendMissing lo vs ↔ x ∈ lo ∨ x ∈ vs
  | [], lo => by simp [appendMissing]
  | v :: vs, lo => by
    unfold appendMissing
    rw [mem_appendMissing vs]
    by_cases hv : v ∈ lo
    · rw [if_pos hv]
      constructor
      · rintro (h | h)
        · exact Or.inl h
        · exact Or.inr (List.mem_cons_of_mem _ h)
      · rintro (h | h)
        · exact Or.inl h
        · rcases List.mem_cons.mp h with rfl | h
          · exact Or.inl hv
          · exact Or.inr h
    · rw [if_neg hv]
      simp only [List.mem_append, List.mem_singleton, List.mem_cons]
      tauto

theorem nodup_appendMissing :
    ∀ (vs lo : List String), lo.Nodup → (appendMissing lo vs).Nodup
  | [], _, h => h
  | v :: vs, lo, h => by
    unfold appendMissing
    by_cases hv : v ∈ lo
    · rw [if_pos hv]
      exact nodup_appendMissing vs lo h
    · rw [if_neg hv]
      refine nodup_appendMissing vs _ ?_
      simp only [List.nodup_append, List.nodup_cons, List.nodup_nil]
      exact ⟨h, ⟨by simp, by simp⟩, by
        intro a ha hb
        rw [List.mem_singleton] at hb
        exact hv (hb ▸ ha)⟩

theorem appendMissing_of_subset :
    ∀ (vs lo : List String), (∀ x ∈ vs, x ∈ lo) → appendMissing lo vs = lo
  | [], _, _ => rfl
  | v :: vs, lo, h => by
    unfold appendMissing
    rw [if_pos (h v (List.mem_cons_self v vs))]
    exact appendMissing_of_subset vs lo fun x hx => h x (List.mem_cons_of_mem _ hx)

theorem lookupEntry_setEntry_self :
    ∀ (zs : List (String × Nat)) (id : String) (z : Nat),
      lookupEntry (setEntry zs id z) id = some z
  | [], id, z => by simp [setEntry, lookupEntry]
  | p :: rest, id, z => by
    by_cases h : p.1 = id
    · simp [setEntry, h, lookupEntry]
    · simp only [setEntry, if_neg h, lookupEntry, List.find?]
      rw [show (decide (p.1 = id)) = false by simp [h]]
      exact lookupEntry_setEntry_self rest id z

theorem lookupEntry_setEntry_ne :
    ∀ (zs : List (String × Nat)) (id id' : String) (z : Nat), id' ≠ id →
      lookupEntry (setEntry zs id z) id' = lookupEntry zs id'
  | [], id, id', z, h => by simp [setEntry, lookupEntry, List.find?, Ne.symm h]
  | p :: rest, id, id', z, h => by
    by_cases hp : p.1 = id
    · simp only [setEntry, if_pos hp, lookupEntry, List.find?]
      rw [show (decide (id = id')) = false by simp [Ne.symm h],
        show (decide (p.1 = id')) = false by simp [hp, Ne.symm h]]
    · simp only [setEntry, if_neg hp, lookupEntry, List.find?]
      cases hd : decide (p.1 = id')
      · exact lookupEntry_setEntry_ne rest id id' z h
      · rfl

theorem lookupEntry_assignZ_of_not_mem :
    ∀ (lo : List String) (zs : List (String × Nat)) (k : Nat) (id : String),
      id ∉ lo → lookupEntry (assignZ zs lo k) id = lookupEntry zs id
  | [], _, _, _, _ => rfl
  | a :: lo, zs, k, id, h => by
    unfold assignZ
    rw [lookupEntry_assignZ_of_not_mem lo _ _ _ fun hm => h (List.mem_cons_of_mem _ hm)]
    exact lookupEntry_setEntry_ne _ _ _ _ fun he => h (he ▸ List.mem_cons_self a lo)

theorem lookupEntry_assignZ :
    ∀ (lo : List String) (zs : List (String × Nat)) (k i : Nat)
      (hi : i < lo.length), lo.Nodup →
      lookupEntry (assignZ zs lo k) (lo.get ⟨i, hi⟩) = some (100000 + (k + i) * 10)
  | [], _, _, i, hi, _ => absurd hi (by simp)
  | a :: lo, zs, k, 0, _, hnd => by
    unfold assignZ
    have ha : a ∉ lo := (List.nodup_cons.mp hnd).1
    show lookupEntry (assignZ (setEntry zs a (100000 + k * 10)) lo (k + 1)) a = _
    rw [lookupEntry_assignZ_of_not_mem lo _ _ _ ha, lookupEntry_setEntry_self]
    rfl
  | a :: lo, zs, k, i + 1, hi, hnd => by
    unfold assignZ
    have hlt : i < lo.length := by simpa using Nat.lt_of_succ_lt_succ hi
    have := lookupEntry_assignZ lo (setEntry zs a (100000 + k * 10)) (k + 1) i hlt
      (List.nodup_cons.mp hnd).2
    have harith : k + 1 + i = k + (i + 1) := by omega
    rw [harith] at this
    exact this

/-! ### Lemmas: layer recalculation -/

theorem recalc_activeClass (dom : List String) (s : OSState) :
    (recalculateWindowLayers dom s).activeClass = s.activeClass := by
  unfold recalculateWindowLayers
  split <;> rfl

theorem recalc_activeWindows (dom : List String) (s : OSState) :
    (recalculateWindowLayers dom s).activeWindows = s.activeWindows := by
  unfold recalculateWindowLayers
  split <;> rfl

theorem recalc_recentlyClosed (dom : List String) (s : OSState) :
    (recalculateWindowLayers dom s).recentlyClosed = s.recentlyClosed := by
  unfold recalculateWindowLayers
  split <;> rfl

theorem recalc_popupVisible (dom : List String) (s : OSState) :
    popupVisible (recalculateWindowLayers dom s) = popupVisible s := by
  unfold recalculateWindowLayers
  split <;> rfl

theorem recalc_visibleIds (dom : List String) (s : OSState) :
    visibleIds dom (recalculateWindowLayers dom s) = visibleIds dom s := by
  unfold visibleIds
  rw [recalc_activeClass]

theorem recalc_layer_eq (dom : List String) (s : OSState)
    (h : popupVisible s = false) :
    (recalculateWindowLayers dom s).layerOrder =
      appendMissing (s.layerOrder.filter (fun id => id ∈ visibleIds dom s))
        (visibleIds dom s) := by
  unfold recalculateWindowLayers
  rw [if_neg (by simp [h])]

theorem recalc_zmap_eq (dom : List String) (s : OSState)
    (h : popupVisible s = false) :
    (recalculateWindowLayers dom s).zmap =
      assignZ s.zmap (recalculateWindowLayers dom s).layerOrder 0 := by
  unfold recalculateWindowLayers
  rw [if_neg (by simp [h])]

theorem mem_recalc_layer (dom : List String) (s : OSState) (id : String)
    (h : popupVisible s = false) :
    id ∈ (recalculateWindowLayers dom s).layerOrder ↔ id ∈ visibleIds dom s := by
  rw [recalc_layer_eq dom s h, mem_appendMissing]
  simp only [List.mem_filter, decide_eq_true_eq]
  tauto

theorem nodup_recalc_layer (dom : List String) (s : OSState)
    (h : popupVisible s = false) (hl : s.layerOrder.Nodup) :
    (recalculateWindowLayers dom s).layerOrder.Nodup := by
  rw [recalc_layer_eq dom s h]
  exact nodup_appendMissing _ _ (hl.filter _)

theorem recalc_zmap_lookup (dom : List String) (s : OSState)
    (h : popupVisible s = false) (hl : s.layerOrder.Nodup)
    (i : Nat) (hi : i < (recalculateWindowLayers dom s).layerOrder.length) :
    lookupEntry (recalculateWindowLayers dom s).zmap
      ((recalculateWindowLayers dom s).layerOrder.get ⟨i, hi⟩) =
      some (100000 + i * 10) := by
  rw [recalc_zmap_eq dom s h]
  have := lookupEntry_assignZ (recalculateWindowLayers dom s).layerOrder s.zmap 0 i hi
    (nodup_recalc_layer dom s h hl)
  simpa using this

/-! ### Lemmas: bring-to-front -/

theorem bringToFront_spec (dom : List String) (s : OSState) (a : String)
    (hp : popupVisible s = false) (hl : s.layerOrder.Nodup)
    (hvis : ∀ id ∈ visibleIds dom s, id ∈ s.layerOrder ∨ id = a)
    (ha : a ∈ dom) :
    (bringWindowToFront dom s a).activeClass = jsSetAdd s.activeClass a
    ∧ (bringWindowToFront dom s a).activeWindows = s.activeWindows
    ∧ (bringWindowToFront dom s a).recentlyClosed = s.recentlyClosed
    ∧ popupVisible (bringWindowToFront dom s a) = false
    ∧ (bringWindowToFront dom s a).layerOrder.Nodup
    ∧ (∀ id, id ∈ (bringWindowToFront dom s a).layerOrder ↔
        id ∈ visibleIds dom (bringWindowToFront dom s a))
    ∧ (bringWindowToFront dom s a).layerOrder.getLast? = some a
    ∧ a ∈ (bringWindowToFront dom s a).activeClass
    ∧ (bringWindowToFront dom s a).focused = some a := by
  set s₁ : OSState :=
    { s with activeClass := jsSetAdd s.activeClass a
             layerOrder := s.layerOrder.erase a ++ [a] } with hs₁
  have hps₁ : popupVisible s₁ = false := hp
  have haNotErase : a ∉ s.layerOrder.erase a := fun hmem =>
    ((List.Nodup.mem_erase_iff hl).mp hmem).1 rfl
  have hl₁ : s₁.layerOrder.Nodup := by
    simp only [hs₁, List.nodup_append, List.nodup_cons, List.nodup_nil]
    exact ⟨hl.erase a, ⟨by simp, by simp⟩, by
      intro x hx hxa
      rw [List.mem_singleton] at hxa
      exact haNotErase (hxa ▸ hx)⟩
  have hvis₁ : visibleIds dom s₁ = dom.filter (fun id => id ∈ jsSetAdd s.activeClass a) := rfl
  have haVis₁ : a ∈ visibleIds dom s₁ := by
    rw [mem_visibleIds]
    exact ⟨ha, mem_jsSetAdd.mpr (Or.inr rfl)⟩
  have haLayer₁ : a ∈ s₁.layerOrder := by
    simp [hs₁]
  -- every visible id of s₁ is already in s₁'s layer order
  have hsub : ∀ x ∈ visibleIds dom s₁, x ∈ s₁.layerOrder := by
    intro x hx
    rcases mem_visibleIds.mp hx with ⟨hxdom, hxac⟩
    rcases mem_jsSetAdd.mp hxac with hxs | rfl
    · have hxviss : x ∈ visibleIds dom s := mem_visibleIds.mpr ⟨hxdom, hxs⟩
      rcases hvis x hxviss with hxl | rfl
      · by_cases hxa : x = a
        · exact hxa ▸ haLayer₁
        · have : x ∈ s.layerOrder.erase a := (List.Nodup.mem_erase_iff hl).mpr ⟨hxa, hxl⟩
          simp [hs₁, this]
      · exact haLayer₁
    · exact haLayer₁
  -- the pruned layer order ends in `a`, and the recalculation appends nothing
  have hpa : (fun id => decide (id ∈ visibleIds dom s₁)) a = true := by
    simpa using haVis₁
  have hkept : s₁.layerOrder.filter (fun id => id ∈ visibleIds dom s₁) =
      (s.layerOrder.erase a).filter (fun id => id ∈ visibleIds dom s₁) ++ [a] := by
    rw [hs₁]
    show ((s.layerOrder.erase a) ++ [a]).filter _ = _
    rw [List.filter_append]
    congr 1
    simp [hpa]
  have happend : appendMissing
      (s₁.layerOrder.filter (fun id => id ∈ visibleIds dom s₁))
      (visibleIds dom s₁) =
      s₁.layerOrder.filter (fun id => id ∈ visibleIds dom s₁) := by
    refine appendMissing_of_subset _ _ ?_
    intro x hx
    refine List.mem_filter.mpr ⟨hsub x hx, by simpa using hx⟩
  have hlayer : (recalculateWindowLayers dom s₁).layerOrder =
      (s.layerOrder.erase a).filter (fun id => id ∈ visibleIds dom s₁) ++ [a] := by
    rw [recalc_layer_eq dom s₁ hps₁, happend, hkept]
  refine ⟨?_, ?_, ?_, ?_, ?_, ?_, ?_, ?_, ?_⟩
  · show (recalculateWindowLayers dom s₁).activeClass = _
    rw [recalc_activeClass]
  · show (recalculateWindowLayers dom s₁).activeWindows = _
    rw [recalc_activeWindows]
  · show (recalculateWindowLayers dom s₁).recentlyClosed = _
    rw [recalc_recentlyClosed]
  · show popupVisible (recalculateWindowLayers dom s₁) = false
    rw [recalc_popupVisible]
    exact hps₁
  · show (recalculateWindowLayers dom s₁).layerOrder.Nodup
    exact nodup_recalc_layer dom s₁ hps₁ hl₁
  · intro id
    show id ∈ (recalculateWindowLayers dom s₁).layerOrder ↔
      id ∈ visibleIds dom { recalculateWindowLayers dom s₁ with focused := some a }
    have : visibleIds dom { recalculateWindowLayers dom s₁ with focused := some a } =
        visibleIds dom s₁ := by
      unfold visibleIds
      rw [show ({ recalculateWindowLayers dom s₁ with focused := some a } : OSState).activeClass =
        s₁.activeClass from recalc_activeClass dom s₁]
    rw [this]
    exact mem_recalc_layer dom s₁ id hps₁
  · show (recalculateWindowLayers dom s₁).layerOrder.getLast? = some a
    rw [hlayer]
    exact List.getLast?_concat _
  · show a ∈ (recalculateWindowLayers dom s₁).activeClass
    rw [recalc_activeClass]
    exact mem_jsSetAdd.mpr (Or.inr rfl)
  · rfl

theorem bringToFront_length (dom : List String) (s : OSState) (a : String)
    (hp : popupVisible s = false) (hl : s.layerOrder.Nodup)
    (hmatch : ∀ id, id ∈ s.layerOrder ↔ id ∈ visibleIds dom s)
    (hac : a ∈ s.activeClass) (ha : a ∈ dom) :
    (bringWindowToFront dom s a).layerOrder.length = s.layerOrder.length := by
  have hadd : jsSetAdd s.activeClass a = s.activeClass := jsSetAdd_of_mem hac
  set s₁ : OSState :=
    { s with activeClass := jsSetAdd s.activeClass a
             layerOrder := s.layerOrder.erase a ++ [a] } with hs₁
  have hvis₁ : visibleIds dom s₁ = visibleIds dom s := by
    unfold visibleIds
    rw [show s₁.activeClass = s.activeClass from hadd]
  have hps₁ : popupVisible s₁ = false := hp
  have haVis : a ∈ visibleIds dom s := mem_visibleIds.mpr ⟨ha, hac⟩
  have haLayer : a ∈ s.layerOrder := (hmatch a).mpr haVis
  have hkeepAll : (s.layerOrder.erase a).filter (fun id => id ∈ visibleIds dom s₁) =
      s.layerOrder.erase a := by
    refine List.filter_eq_self.mpr ?_
    intro x hx
    have hxl : x ∈ s.layerOrder := ((List.Nodup.mem_erase_iff hl).mp hx).2
    simpa [hvis₁] using (hmatch x).mp hxl
  have hkept : s₁.layerOrder.filter (fun id => id ∈ visibleIds dom s₁) =
      s.layerOrder.erase a ++ [a] := by
    rw [hs₁]
    show ((s.layerOrder.erase a) ++ [a]).filter _ = _
    rw [List.filter_append, hkeepAll]
    congr 1
    simp [hvis₁, haVis]
  have hsub : ∀ x ∈ visibleIds dom s₁, x ∈ s₁.layerOrder.filter
      (fun id => id ∈ visibleIds dom s₁) := by
    intro x hx
    rw [hkept]
    by_cases hxa : x = a
    · simp [hxa]
    · have hxl : x ∈ s.layerOrder := (hmatch x).mpr (hvis₁ ▸ hx)
      exact List.mem_append.mpr (Or.inl ((List.Nodup.mem_erase_iff hl).mpr ⟨hxa, hxl⟩))
  have hlayer : (bringWindowToFront dom s a).layerOrder =
      s.layerOrder.erase a ++ [a] := by
    show (recalculateWindowLayers dom s₁).layerOrder = _
    rw [recalc_layer_eq dom s₁ hps₁, appendMissing_of_subset _ _ hsub, hkept]
  rw [hlayer]
  simp only [List.length_append, List.length_singleton,
    List.length_erase_of_mem haLayer]
  have := List.length_pos_of_mem haLayer
  omega

/-! ### Lemmas: the invariant is inductive -/

theorem inv_init (dom : List String) : Inv dom initState := by
  refine ⟨rfl, List.nodup_nil, ?_⟩
  intro id hid
  rw [mem_visibleIds] at hid
  exact absurd hid.2 (List.not_mem_nil id)

theorem inv_bringToFront (dom : List String) (s : OSState) (a : String)
    (hp : popupVisible s = false) (hl : s.layerOrder.Nodup) (ha : a ∈ dom)
    (hvis : ∀ id ∈ visibleIds dom s, id ∈ s.layerOrder ∨ id = a) :
    Inv dom (bringWindowToFront dom s a) := by
  obtain ⟨_, _, _, hp', hl', hiff, _, _, _⟩ := bringToFront_spec dom s a hp hl hvis ha
  exact ⟨hp', hl', fun id hid => (hiff id).mpr hid⟩

theorem inv_focusWindow (dom : List String) (s : OSState) (a : String)
    (h : Inv dom s) (ha : a ∈ dom) : Inv dom (focusWindow dom s a) := by
  unfold focusWindow
  split
  · exact h
  · exact inv_bringToFront dom s a h.1 h.2.1 ha fun id hid => Or.inl (h.2.2 id hid)

theorem inv_openWindow (dom : List String) (s : OSState) (a : String)
    (h : Inv dom s) : Inv dom (openWindow dom s a) := by
  unfold openWindow
  split
  · exact h
  · rename_i hdom
    rw [not_not] at hdom
    split
    · exact h
    · rename_i hrc
      split
      · exact inv_focusWindow dom s a h hdom
      · -- fresh open: show `a` visible but not yet layered is tolerated
        set s₁ : OSState :=
          { s with activeWindows := jsSetAdd s.activeWindows a
                   activeClass := jsSetAdd s.activeClass a } with hs₁
        have hrc₁ : a ∉ s₁.recentlyClosed := hrc
        show Inv dom (focusWindow dom s₁ a)
        unfold focusWindow
        rw [if_neg hrc₁]
        refine inv_bringToFront dom s₁ a h.1 h.2.1 hdom ?_
        intro id hid
        rcases mem_visibleIds.mp hid with ⟨hiddom, hidac⟩
        rcases mem_jsSetAdd.mp hidac with hids | rfl
        · exact Or.inl (h.2.2 id (mem_visibleIds.mpr ⟨hiddom, hids⟩))
        · exact Or.inr rfl

theorem inv_closeWindow (dom : List String) (s : OSState) (a : String)
    (h : Inv dom s) : Inv dom (closeWindow dom s a) := by
  unfold closeWindow
  split
  · exact h
  · set s₁ : OSState :=
      { s with layerOrder := s.layerOrder.erase a
               activeWindows := jsSetDelete s.activeWindows a
               activeClass := jsSetDelete s.activeClass a } with hs₁
    have hp₁ : popupVisible s₁ = false := h.1
    have hl₁ : s₁.layerOrder.Nodup := h.2.1.erase a
    refine ⟨?_, ?_, ?_⟩
    · show popupVisible (recalculateWindowLayers dom s₁) = false
      rw [recalc_popupVisible]
      exact hp₁
    · show (recalculateWindowLayers dom s₁).layerOrder.Nodup
      exact nodup_recalc_layer dom s₁ hp₁ hl₁
    · intro id hid
      have : visibleIds dom
          { recalculateWindowLayers dom s₁ with
            recentlyClosed := jsSetAdd (recalculateWindowLayers dom s₁).recentlyClosed a } =
          visibleIds dom s₁ := by
        unfold visibleIds
        rw [show ({ recalculateWindowLayers dom s₁ with
          recentlyClosed := jsSetAdd (recalculateWindowLayers dom s₁).recentlyClosed a }
            : OSState).activeClass = s₁.activeClass from recalc_activeClass dom s₁]
      rw [this] at hid
      show id ∈ (recalculateWindowLayers dom s₁).layerOrder
      exact (mem_recalc_layer dom s₁ id hp₁).mpr hid

theorem inv_minimizeWindow (dom : List String) (s : OSState) (a : String)
    (h : Inv dom s) : Inv dom (minimizeWindow dom s a) := by
  unfold minimizeWindow
  split
  · exact h
  · refine ⟨h.1, h.2.1, ?_⟩
    intro id hid
    rcases mem_visibleIds.mp hid with ⟨hiddom, hidac⟩
    exact h.2.2 id (mem_visibleIds.mpr ⟨hiddom, (mem_jsSetDelete.mp hidac).1⟩)

theorem inv_step (dom : List String) (s : OSState) (op : WinOp)
    (h : Inv dom s) : Inv dom (step dom s op) := by
  cases op with
  | openWin a => exact inv_openWindow dom s a h
  | closeWin a => exact inv_closeWindow dom s a h
  | focusWin a =>
    show Inv dom (if a ∈ dom then focusWindow dom s a else s)
    split
    · exact inv_focusWindow dom s a h (by assumption)
    · exact h
  | toFront a =>
    show Inv dom (if a ∈ dom then bringWindowToFront dom s a else s)
    split
    · exact inv_bringToFront dom s a h.1 h.2.1 (by assumption)
        fun id hid => Or.inl (h.2.2 id hid)
    · exact h
  | minimizeWin a => exact inv_minimizeWindow dom s a h
  | elapse a => exact h

theorem inv_foldl (dom : List String) :
    ∀ (ops : List WinOp) (s : OSState), Inv dom s →
      Inv dom (ops.foldl (step dom) s)
  | [], _, h => h
  | op :: ops, s, h => inv_foldl dom ops (step dom s op) (inv_step dom s op h)

theorem inv_run (dom : List String) (ops : List WinOp) :
    Inv dom (run dom ops) :=
  inv_foldl dom ops initState (inv_init dom)

theorem layerMatches_init (dom : List String) : LayerMatches dom initState := by
  intro id
  constructor
  · intro hid
    exact absurd hid (List.not_mem_nil id)
  · intro hid
    rw [mem_visibleIds] at hid
    exact absurd hid.2 (List.not_mem_nil id)

theorem layerMatches_bringToFront (dom : List String) (s : OSState) (a : String)
    (hp : popupVisible s = false) (hl : s.layerOrder.Nodup) (ha : a ∈ dom)
    (hvis : ∀ id ∈ visibleIds dom s, id ∈ s.layerOrder ∨ id = a) :
    LayerMatches dom (bringWindowToFront dom s a) := by
  obtain ⟨_, _, _, _, _, hiff, _, _, _⟩ := bringToFront_spec dom s a hp hl hvis ha
  exact hiff

theorem layerMatches_step (dom : List String) (s : OSState) (op : WinOp)
    (h : Inv dom s) (hm : LayerMatches dom s) (hop : op.isMinimize = false) :
    LayerMatches dom (step dom s op) := by
  cases op with
  | openWin a =>
    show LayerMatches dom (openWindow dom s a)
    unfold openWindow
    split
    · exact hm
    · rename_i hdom
      rw [not_not] at hdom
      split
      · exact hm
      · rename_i hrc
        split
        · unfold focusWindow
          split
          · exact hm
          · exact layerMatches_bringToFront dom s a h.1 h.2.1 hdom
              fun id hid => Or.inl (h.2.2 id hid)
        · set s₁ : OSState :=
            { s with activeWindows := jsSetAdd s.activeWindows a
                     activeClass := jsSetAdd s.activeClass a } with hs₁
          have hrc₁ : a ∉ s₁.recentlyClosed := hrc
          show LayerMatches dom (focusWindow dom s₁ a)
          unfold focusWindow
          rw [if_neg hrc₁]
          refine layerMatches_bringToFront dom s₁ a h.1 h.2.1 hdom ?_
          intro id hid
          rcases mem_visibleIds.mp hid with ⟨hiddom, hidac⟩
          rcases mem_jsSetAdd.mp hidac with hids | rfl
          · exact Or.inl (h.2.2 id (mem_visibleIds.mpr ⟨hiddom, hids⟩))
          · exact Or.inr rfl
  | closeWin a =>
    show LayerMatches dom (closeWindow dom s a)
    unfold closeWindow
    split
    · exact hm
    · set s₁ : OSState :=
        { s with layerOrder := s.layerOrder.erase a
                 activeWindows := jsSetDelete s.activeWindows a
                 activeClass := jsSetDelete s.activeClass a } with hs₁
      have hp₁ : popupVisible s₁ = false := h.1
      intro id
      have hvisEq : visibleIds dom
          { recalculateWindowLayers dom s₁ with
            recentlyClosed := jsSetAdd (recalculateWindowLayers dom s₁).recentlyClosed a } =
          visibleIds dom s₁ := by
        unfold visibleIds
        rw [show ({ recalculateWindowLayers dom s₁ with
          recentlyClosed := jsSetAdd (recalculateWindowLayers dom s₁).recentlyClosed a }
            : OSState).activeClass = s₁.activeClass from recalc_activeClass dom s₁]
      show id ∈ (recalculateWindowLayers dom s₁).layerOrder ↔ _
      rw [hvisEq]
      exact mem_recalc_layer dom s₁ id hp₁
  | focusWin a =>
    show LayerMatches dom (if a ∈ dom then focusWindow dom s a else s)
    split
    · unfold focusWindow
      split
      · exact hm
      · exact layerMatches_bringToFront dom s a h.1 h.2.1 (by assumption)
          fun id hid => Or.inl (h.2.2 id hid)
    · exact hm
  | toFront a =>
    show LayerMatches dom (if a ∈ dom then bringWindowToFront dom s a else s)
    split
    · exact layerMatches_bringToFront dom s a h.1 h.2.1 (by assumption)
        fun id hid => Or.inl (h.2.2 id hid)
    · exact hm
  | minimizeWin a => exact absurd hop (by simp [WinOp.isMinimize])
  | elapse a => exact hm

theorem layerMatches_foldl (dom : List String) :
    ∀ (ops : List WinOp) (s : OSState), Inv dom s → LayerMatches dom s →
      (∀ op ∈ ops, op.isMinimize = false) →
      LayerMatches dom (ops.foldl (step dom) s)
  | [], _, _, hm, _ => hm
  | op :: ops, s, h, hm, hops =>
    layerMatches_foldl dom ops (step dom s op) (inv_step dom s op h)
      (layerMatches_step dom s op h hm (hops op (List.mem_cons_self op ops)))
      fun o ho => hops o (List.mem_cons_of_mem _ ho)

/-! ### Claim theorems -/

/-- C1 (counterexample): the layer-order/visible-set equality claimed for
every reachable state fails after a minimize. Opening window `"a"` and then
minimizing it leaves `"a"` in `windowLayerOrder` even though the window is
hidden — `minimizeWindow` removes neither the layer entry nor triggers a
recalculation. -/
theorem layer_order_minimize_counterexample :
    "a" ∈ (run ["a"] [.openWin "a", .minimizeWin "a"]).layerOrder
    ∧ "a" ∉ visibleIds ["a"] (run ["a"] [.openWin "a", .minimizeWin "a"]) := by
  decide

/-- C1 (amended): in every state reachable by open, close, focus,
bring-to-front, minimize and cooldown-expiry operations, the layer order
has no duplicate ids and contains every currently-visible window's id
(hence exactly once); and for sequences free of minimize operations the
layer order holds exactly the visible ids. After a minimize, a hidden
window's id may linger in the layer order until the next recalculation. -/
theorem layer_order_uniqueness (dom : List String) (ops : List WinOp) :
    (run dom ops).layerOrder.Nodup
    ∧ (∀ id ∈ visibleIds dom (run dom ops), id ∈ (run dom ops).layerOrder)
    ∧ ((∀ op ∈ ops, op.isMinimize = false) →
        ∀ id, id ∈ (run dom ops).layerOrder ↔ id ∈ visibleIds dom (run dom ops)) := by
  refine ⟨(inv_run dom ops).2.1, (inv_run dom ops).2.2, ?_⟩
  intro hops
  exact layerMatches_foldl dom ops initState (inv_init dom) (layerMatches_init dom) hops

/-- C1 witness: a concrete minimize-free history on two windows in which
the amended invariant's layer/visible equality is realized. -/
theorem layer_order_uniqueness_witness :
    "a" ∈ (run ["a", "b"]
        [.openWin "a", .openWin "b", .focusWin "a", .closeWin "b"]).layerOrder ↔
      "a" ∈ visibleIds ["a", "b"] (run ["a", "b"]
        [.openWin "a", .openWin "b", .focusWin "a", .closeWin "b"]) :=
  (layer_order_uniqueness ["a", "b"]
    [.openWin "a", .openWin "b", .focusWin "a", .closeWin "b"]).2.2 (by decide) "a"

theorem openWindow_fresh_spec (dom : List String) (s : OSState) (a : String)
    (h : Inv dom s) (ha : a ∈ dom) (hrc : a ∉ s.recentlyClosed)
    (haw : a ∉ s.activeWindows) :
    a ∈ (openWindow dom s a).activeClass
    ∧ (openWindow dom s a).layerOrder.getLast? = some a
    ∧ a ∈ (openWindow dom s a).activeWindows
    ∧ (openWindow dom s a).recentlyClosed = s.recentlyClosed
    ∧ Inv dom (openWindow dom s a)
    ∧ (∀ id, id ∈ (openWindow dom s a).layerOrder ↔
        id ∈ visibleIds dom (openWindow dom s a)) := by
  have hopen : openWindow dom s a =
      bringWindowToFront dom
        { s with activeWindows := jsSetAdd s.activeWindows a
                 activeClass := jsSetAdd s.activeClass a } a := by
    unfold openWindow
    rw [if_neg (not_not_intro ha), if_neg hrc, if_neg haw]
    show focusWindow dom _ a = _
    unfold focusWindow
    rw [if_neg (show a ∉ s.recentlyClosed from hrc)]
  set s₁ : OSState :=
    { s with activeWindows := jsSetAdd s.activeWindows a
             activeClass := jsSetAdd s.activeClass a } with hs₁
  have hvis₁ : ∀ id ∈ visibleIds dom s₁, id ∈ s₁.layerOrder ∨ id = a := by
    intro id hid
    rcases mem_visibleIds.mp hid with ⟨hiddom, hidac⟩
    rcases mem_jsSetAdd.mp hidac with hids | rfl
    · exact Or.inl (h.2.2 id (mem_visibleIds.mpr ⟨hiddom, hids⟩))
    · exact Or.inr rfl
  obtain ⟨hac, haw', hrc', hp', hl', hiff, hlast, hain, _⟩ :=
    bringToFront_spec dom s₁ a h.1 h.2.1 hvis₁ ha
  rw [hopen]
  refine ⟨hain, hlast, ?_, hrc', ⟨hp', hl', fun id hid => (hiff id).mpr hid⟩, hiff⟩
  rw [haw']
  exact mem_jsSetAdd.mpr (Or.inr rfl)

/-- C4: opening an application key twice with no intervening close acts on
one single window. Starting from any reachable state in which the key is
not suppression-cooling, after the first `openWindow` the key's window is
visible, frontmost and appears exactly once in the layer order; the second
`openWindow` keeps the very same layer-order length and `activeWindows`
set (it neither creates nor reveals a second window) and merely brings the
same window to the front again, where it again appears exactly once. -/
theorem openWindow_idempotent (dom : List String) (ops : List WinOp) (a : String)
    (ha : a ∈ dom) (hrc : a ∉ (run dom ops).recentlyClosed) :
    a ∈ (openWindow dom (run dom ops) a).activeClass
    ∧ (openWindow dom (run dom ops) a).layerOrder.getLast? = some a
    ∧ (openWindow dom (run dom ops) a).layerOrder.count a = 1
    ∧ a ∈ (openWindow dom (openWindow dom (run dom ops) a) a).activeClass
    ∧ (openWindow dom (openWindow dom (run dom ops) a) a).layerOrder.getLast? = some a
    ∧ (openWindow dom (openWindow dom (run dom ops) a) a).layerOrder.count a = 1
    ∧ (openWindow dom (openWindow dom (run dom ops) a) a).layerOrder.length =
        (openWindow dom (run dom ops) a).layerOrder.length
    ∧ (openWindow dom (openWindow dom (run dom ops) a) a).activeWindows =
        (openWindow dom (run dom ops) a).activeWindows := by
  set s : OSState := run dom ops with hs
  have hInv : Inv dom s := inv_run dom ops
  -- first call: fresh open or focus of the already-open window
  have first : a ∈ (openWindow dom s a).activeClass
      ∧ (openWindow dom s a).layerOrder.getLast? = some a
      ∧ a ∈ (openWindow dom s a).activeWindows
      ∧ (openWindow dom s a).recentlyClosed = s.recentlyClosed
      ∧ Inv dom (openWindow dom s a)
      ∧ (∀ id, id ∈ (openWindow dom s a).layerOrder ↔
          id ∈ visibleIds dom (openWindow dom s a)) := by
    by_cases haw : a ∈ s.activeWindows
    · have hopen : openWindow dom s a = bringWindowToFront dom s a := by
        unfold openWindow
        rw [if_neg (not_not_intro ha), if_neg hrc, if_pos haw]
        unfold focusWindow
        rw [if_neg hrc]
      obtain ⟨hac, haw', hrc', hp', hl', hiff, hlast, hain, _⟩ :=
        bringToFront_spec dom s a hInv.1 hInv.2.1
          (fun id hid => Or.inl (hInv.2.2 id hid)) ha
      rw [hopen]
      exact ⟨hain, hlast, by rw [haw']; exact haw, hrc',
        ⟨hp', hl', fun id hid => (hiff id).mpr hid⟩, hiff⟩
    · exact openWindow_fresh_spec dom s a hInv ha hrc haw
  obtain ⟨hac₁, hlast₁, haw₁, hrc₁, hInv₁, hmatch₁⟩ := first
  set s₁ : OSState := openWindow dom s a with hs₁
  have hrc₁' : a ∉ s₁.recentlyClosed := by rw [hrc₁]; exact hrc
  have hmem₁ : a ∈ s₁.layerOrder := (hmatch₁ a).mpr (mem_visibleIds.mpr ⟨ha, hac₁⟩)
  have hcount₁ : s₁.layerOrder.count a = 1 :=
    List.count_eq_one_of_mem hInv₁.2.1 hmem₁
  -- second call: the window is already in `activeWindows`, so it is focused
  have hopen₂ : openWindow dom s₁ a = bringWindowToFront dom s₁ a := by
    unfold openWindow
    rw [if_neg (not_not_intro ha), if_neg hrc₁', if_pos haw₁]
    unfold focusWindow
    rw [if_neg hrc₁']
  obtain ⟨hac₂, haw₂, _, hp₂, hl₂, hiff₂, hlast₂, hain₂, _⟩ :=
    bringToFront_spec dom s₁ a hInv₁.1 hInv₁.2.1
      (fun id hid => Or.inl (hInv₁.2.2 id hid)) ha
  have hlen₂ : (bringWindowToFront dom s₁ a).layerOrder.length =
      s₁.layerOrder.length :=
    bringToFront_length dom s₁ a hInv₁.1 hInv₁.2.1 hmatch₁ hac₁ ha
  have hmem₂ : a ∈ (bringWindowToFront dom s₁ a).layerOrder := by
    rw [hiff₂]
    rw [mem_visibleIds]
    exact ⟨ha, hain₂⟩
  refine ⟨hac₁, hlast₁, hcount₁, ?_, ?_, ?_, ?_, ?_⟩
  · rw [hopen₂]
    exact hain₂
  · rw [hopen₂]
    exact hlast₂
  · rw [hopen₂]
    exact List.count_eq_one_of_mem hl₂ hmem₂
  · rw [hopen₂]
    exact hlen₂
  · rw [hopen₂, haw₂]

/-- C4 witness: the double open evaluated on a concrete two-window
desktop. -/
theorem openWindow_idempotent_witness :
    "a" ∈ (["a", "b"] : List String)
    ∧ "a" ∉ (run ["a", "b"] [.openWin "b"]).recentlyClosed
    ∧ (openWindow ["a", "b"] (openWindow ["a", "b"] (run ["a", "b"] [.openWin "b"]) "a")
        "a").layerOrder.count "a" = 1 :=
  ⟨by decide, by decide,
    (openWindow_idempotent ["a", "b"] [.openWin "b"] "a" (by decide) (by decide)).2.2.2.2.2.1⟩

theorem closeWindow_mem_recentlyClosed (dom : List String) (s : OSState)
    (a : String) (ha : a ∈ dom) : a ∈ (closeWindow dom s a).recentlyClosed := by
  unfold closeWindow
  rw [if_neg (not_not_intro ha)]
  exact mem_jsSetAdd.mpr (Or.inr rfl)

theorem closeWindow_activeWindows (dom : List String) (s : OSState)
    (a : String) (ha : a ∈ dom) :
    (closeWindow dom s a).activeWindows = jsSetDelete s.activeWindows a := by
  unfold closeWindow
  rw [if_neg (not_not_intro ha)]
  exact recalc_activeWindows dom _

/-- C3: the suppression law. Immediately after `closeWindow`, the closed
application key is in `recentlyClosedWindows`; while a key is in that set,
`openWindow` and `focusWindow` for it are exact no-ops (the whole state,
hence the visible set, the layer order and the focus state, is unchanged);
and after the 200ms cooldown callback fires for the key, `openWindow`
reveals and fronts the window again and `focusWindow` brings it to the
front (the window, a static one, is made visible again by
`bringWindowToFront`). -/
theorem close_suppression_law (dom : List String) (ops : List WinOp) (a : String)
    (ha : a ∈ dom) :
    a ∈ (closeWindow dom (run dom ops) a).recentlyClosed
    ∧ (∀ s' : OSState, a ∈ s'.recentlyClosed →
        openWindow dom s' a = s' ∧ focusWindow dom s' a = s')
    ∧ a ∉ (elapseCooldown (closeWindow dom (run dom ops) a) a).recentlyClosed
    ∧ a ∈ (openWindow dom
        (elapseCooldown (closeWindow dom (run dom ops) a) a) a).activeClass
    ∧ (openWindow dom
        (elapseCooldown (closeWindow dom (run dom ops) a) a) a).layerOrder.getLast? =
        some a
    ∧ a ∈ (focusWindow dom
        (elapseCooldown (closeWindow dom (run dom ops) a) a) a).activeClass
    ∧ (focusWindow dom
        (elapseCooldown (closeWindow dom (run dom ops) a) a) a).layerOrder.getLast? =
        some a := by
  set s : OSState := run dom ops with hs
  have hInv : Inv dom s := inv_run dom ops
  have hInvC : Inv dom (closeWindow dom s a) := inv_closeWindow dom s a hInv
  set s₂ : OSState := closeWindow dom s a with hs₂
  set s₃ : OSState := elapseCooldown s₂ a with hs₃
  have hInv₃ : Inv dom s₃ := hInvC
  have hrc₃ : a ∉ s₃.recentlyClosed := by
    intro hmem
    exact (mem_jsSetDelete.mp hmem).2 rfl
  have haw₃ : a ∉ s₃.activeWindows := by
    show a ∉ s₂.activeWindows
    rw [hs₂, closeWindow_activeWindows dom s a ha]
    intro hmem
    exact (mem_jsSetDelete.mp hmem).2 rfl
  have hfresh := openWindow_fresh_spec dom s₃ a hInv₃ ha hrc₃ haw₃
  have hfocus : focusWindow dom s₃ a = bringWindowToFront dom s₃ a := by
    unfold focusWindow
    rw [if_neg hrc₃]
  obtain ⟨_, _, _, _, _, _, hlastF, hainF, _⟩ :=
    bringToFront_spec dom s₃ a hInv₃.1 hInv₃.2.1
      (fun id hid => Or.inl (hInv₃.2.2 id hid)) ha
  refine ⟨closeWindow_mem_recentlyClosed dom s a ha, ?_, hrc₃,
    hfresh.1, hfresh.2.1, ?_, ?_⟩
  · intro s' hrc'
    constructor
    · unfold openWindow
      rw [if_neg (not_not_intro ha), if_pos hrc']
    · unfold focusWindow
      rw [if_pos hrc']
  · rw [hfocus]
    exact hainF
  · rw [hfocus]
    exact hlastF

/-- C3 witness: the suppression law on a concrete closed window. -/
theorem close_suppression_law_witness :
    "a" ∈ (["a"] : List String)
    ∧ openWindow ["a"] (closeWindow ["a"] (run ["a"] [.openWin "a"]) "a") "a" =
        closeWindow ["a"] (run ["a"] [.openWin "a"]) "a" :=
  ⟨by decide,
    ((close_suppression_law ["a"] [.openWin "a"] "a" (by decide)).2.1
      (closeWindow ["a"] (run ["a"] [.openWin "a"]) "a")
      (close_suppression_law ["a"] [.openWin "a"] "a" (by decide)).1).1⟩

/-- C9: minimize is suppression-free. Minimizing a window hides it (drops
it from the visible set) without touching `recentlyClosedWindows` and
without destroying any state beyond the visibility flags (the layer order
is untouched), so an `openWindow` for the same key issued immediately
afterwards — with no cooldown wait — succeeds: the window is visible and
frontmost again. -/
theorem minimize_no_suppression (dom : List String) (ops : List WinOp) (a : String)
    (ha : a ∈ dom) (hrc : a ∉ (run dom ops).recentlyClosed) :
    (minimizeWindow dom (run dom ops) a).recentlyClosed = (run dom ops).recentlyClosed
    ∧ a ∉ visibleIds dom (minimizeWindow dom (run dom ops) a)
    ∧ (minimizeWindow dom (run dom ops) a).layerOrder = (run dom ops).layerOrder
    ∧ a ∈ (openWindow dom (minimizeWindow dom (run dom ops) a) a).activeClass
    ∧ (openWindow dom (minimizeWindow dom (run dom ops) a) a).layerOrder.getLast? =
        some a
    ∧ a ∈ (openWindow dom (minimizeWindow dom (run dom ops) a) a).activeWindows := by
  set s : OSState := run dom ops with hs
  have hInv : Inv dom s := inv_run dom ops
  set sm : OSState := minimizeWindow dom s a with hsm
  have hm : sm = { s with activeClass := jsSetDelete s.activeClass a
                          activeWindows := jsSetDelete s.activeWindows a } := by
    rw [hsm]
    unfold minimizeWindow
    rw [if_neg (not_not_intro ha)]
  have hInvM : Inv dom sm := inv_minimizeWindow dom s a hInv
  have hrcM : a ∉ sm.recentlyClosed := by rw [hm]; exact hrc
  have hawM : a ∉ sm.activeWindows := by
    rw [hm]
    intro hmem
    exact (mem_jsSetDelete.mp hmem).2 rfl
  have hfresh := openWindow_fresh_spec dom sm a hInvM ha hrcM hawM
  refine ⟨by rw [hm], ?_, by rw [hm], hfresh.1, hfresh.2.1, hfresh.2.2.1⟩
  intro hvis
  rcases mem_visibleIds.mp hvis with ⟨_, hac⟩
  rw [hm] at hac
  exact (mem_jsSetDelete.mp hac).2 rfl

/-- C9 witness: minimize-then-open on a concrete window. -/
theorem minimize_no_suppression_witness :
    "a" ∈ (["a"] : List String)
    ∧ "a" ∉ (run ["a"] [.openWin "a"]).recentlyClosed
    ∧ "a" ∈ (openWindow ["a"]
        (minimizeWindow ["a"] (run ["a"] [.openWin "a"]) "a") "a").activeClass :=
  ⟨by decide, by decide,
    (minimize_no_suppression ["a"] [.openWin "a"] "a" (by decide) (by decide)).2.2.2.1⟩

/-- C2: monotonic z-index. After a layer recalculation that actually runs
(no popup is mounted) on a duplicate-free layer order, the window at
position `i` of the resulting layer order carries inline z-index
`100000 + i * 10` — so positions `i < j` get strictly increasing z-indices
(base `100000`, positive step `10`) — and no two distinct visible windows
share a z-index. -/
theorem recalc_zindex_monotonic (dom : List String) (s : OSState)
    (hl : s.layerOrder.Nodup) (hp : popupVisible s = false) :
    (∀ i (hi : i < (recalculateWindowLayers dom s).layerOrder.length),
        lookupEntry (recalculateWindowLayers dom s).zmap
          ((recalculateWindowLayers dom s).layerOrder.get ⟨i, hi⟩) =
          some (100000 + i * 10))
    ∧ (∀ i j (hi : i < (recalculateWindowLayers dom s).layerOrder.length)
        (hj : j < (recalculateWindowLayers dom s).layerOrder.length), i < j →
        ∀ zi zj,
          lookupEntry (recalculateWindowLayers dom s).zmap
            ((recalculateWindowLayers dom s).layerOrder.get ⟨i, hi⟩) = some zi →
          lookupEntry (recalculateWindowLayers dom s).zmap
            ((recalculateWindowLayers dom s).layerOrder.get ⟨j, hj⟩) = some zj →
          zi < zj)
    ∧ (∀ a b, a ∈ visibleIds dom s → b ∈ visibleIds dom s → a ≠ b →
        lookupEntry (recalculateWindowLayers dom s).zmap a ≠
          lookupEntry (recalculateWindowLayers dom s).zmap b) := by
  refine ⟨recalc_zmap_lookup dom s hp hl, ?_, ?_⟩
  · intro i j hi hj hij zi zj hzi hzj
    rw [recalc_zmap_lookup dom s hp hl i hi] at hzi
    rw [recalc_zmap_lookup dom s hp hl j hj] at hzj
    have h₁ : zi = 100000 + i * 10 := (Option.some_inj.mp hzi).symm
    have h₂ : zj = 100000 + j * 10 := (Option.some_inj.mp hzj).symm
    omega
  · intro a b hav hbv hab heq
    have hal : a ∈ (recalculateWindowLayers dom s).layerOrder :=
      (mem_recalc_layer dom s a hp).mpr hav
    have hbl : b ∈ (recalculateWindowLayers dom s).layerOrder :=
      (mem_recalc_layer dom s b hp).mpr hbv
    rcases List.mem_iff_get.mp hal with ⟨⟨i, hi⟩, hga⟩
    rcases List.mem_iff_get.mp hbl with ⟨⟨j, hj⟩, hgb⟩
    have hza := recalc_zmap_lookup dom s hp hl i hi
    have hzb := recalc_zmap_lookup dom s hp hl j hj
    rw [hga] at hza
    rw [hgb] at hzb
    rw [hza, hzb] at heq
    have hij : i = j := by
      have := Option.some_inj.mp heq
      omega
    subst hij
    exact hab (hga.symm.trans hgb)

/-- C2 witness: two open windows get distinct, increasing z-indices. -/
theorem recalc_zindex_monotonic_witness :
    (run ["a", "b"] [.openWin "a", .openWin "b"]).layerOrder.Nodup
    ∧ popupVisible (run ["a", "b"] [.openWin "a", .openWin "b"]) = false
    ∧ "a" ∈ visibleIds ["a", "b"] (run ["a", "b"] [.openWin "a", .openWin "b"])
    ∧ "b" ∈ visibleIds ["a", "b"] (run ["a", "b"] [.openWin "a", .openWin "b"])
    ∧ lookupEntry
        (recalculateWindowLayers ["a", "b"]
          (run ["a", "b"] [.openWin "a", .openWin "b"])).zmap "a" ≠
      lookupEntry
        (recalculateWindowLayers ["a", "b"]
          (run ["a", "b"] [.openWin "a", .openWin "b"])).zmap "b" :=
  ⟨by decide, by decide, by decide, by decide,
    (recalc_zindex_monotonic ["a", "b"] (run ["a", "b"] [.openWin "a", .openWin "b"])
      (by decide) (by decide)).2.2 "a" "b" (by decide) (by decide) (by decide)⟩

/-- C7: popup freeze. Whenever any of the three modal confirmation popups
(rename, delete, remove-note) is visible, `recalculateWindowLayers`
returns the state unchanged — layer order, every window's z-index, and all
other fields included. The guard is the explicit popup check at the top of
the function, not a timing accident, so this holds for every call made
while the popup is visible. -/
theorem recalc_popup_noop (dom : List String) (s : OSState)
    (hp : popupVisible s = true) : recalculateWindowLayers dom s = s := by
  unfold recalculateWindowLayers
  rw [if_pos hp]

/-- C7 witness: a recalculation attempted while the delete popup is
mounted leaves a concrete state untouched. -/
theorem recalc_popup_noop_witness :
    popupVisible { initState with deletePopup := true } = true
    ∧ recalculateWindowLayers ["a"] { initState with deletePopup := true } =
        { initState with deletePopup := true } :=
  ⟨rfl, recalc_popup_noop ["a"] { initState with deletePopup := true } rfl⟩

theorem resizeUpdate_ok (hc : HandleClass) (g : Geometry) (dx dy : Int)
    (hg : GeomOK g) : GeomOK (resizeUpdate hc g dx dy) := by
  obtain ⟨hw, hh, ht⟩ := hg
  cases hc <;>
    · simp only [resizeUpdate, GeomOK]
      split <;> refine ⟨?_, ?_, ?_⟩ <;> simp_all

theorem dragUpdate_ok (g : Geometry) (dx dy : Int) (hg : GeomOK g) :
    GeomOK (dragUpdate g dx dy) := by
  obtain ⟨hw, hh, ht⟩ := hg
  exact ⟨hw, hh, by simp [dragUpdate]⟩

theorem applyGesture_ok (g : Geometry) (gst : Gesture) (hg : GeomOK g) :
    GeomOK (applyGesture g gst) := by
  cases gst with
  | drag dx dy => exact dragUpdate_ok g dx dy hg
  | resize hc dx dy => exact resizeUpdate_ok hc g dx dy hg

/-- C5: geometry clamp invariant. Starting from any geometry satisfying
the clamp bounds (width at least 300, height at least 200, top at or below
the 40px taskbar offset), every sequence of drag and resize gestures — any
handle direction, any pointer deltas — ends within the bounds; and since
each intermediate pointer-move update of a gesture is the same computation
from the gesture-start geometry at a smaller delta, every intermediate
update is an instance of this statement as well. -/
theorem gesture_clamp_invariant (g : Geometry) (gs : List Gesture)
    (hg : GeomOK g) : GeomOK (runGestures g gs) := by
  induction gs generalizing g with
  | nil => exact hg
  | cons gst rest ih => exact ih (applyGesture g gst) (applyGesture_ok g gst hg)

/-- C5 witness: a concrete shrinking resize followed by an upward drag
stays within the clamp bounds. -/
theorem gesture_clamp_invariant_witness :
    GeomOK ⟨0, 40, 300, 200⟩
    ∧ GeomOK (runGestures ⟨0, 40, 300, 200⟩
        [.resize .nw 500 600, .drag 10 (-500), .resize .se (-50) (-70)]) :=
  ⟨by decide,
    gesture_clamp_invariant ⟨0, 40, 300, 200⟩
      [.resize .nw 500 600, .drag 10 (-500), .resize .se (-50) (-70)] (by decide)⟩

/-- C6: south-east resize arithmetic. Dragging the south-east handle by
`(+40, +30)` from geometry `(left 100, top 100, width 300, height 200)`
yields exactly `(left 100, top 100, width 340, height 230)` — the position
is unchanged and the size grows by the deltas — and any south-east drag
whose delta would take the width below 300 clamps the width to exactly
300. -/
theorem se_resize_arithmetic :
    resizeUpdate .se ⟨100, 100, 300, 200⟩ 40 30 = ⟨100, 100, 340, 230⟩
    ∧ ∀ (g : Geometry) (dx dy : Int), g.width + dx < 300 → 40 ≤ g.top →
        (resizeUpdate .se g dx dy).width = 300 := by
  refine ⟨by decide, ?_⟩
  intro g dx dy hlt htop
  simp only [resizeUpdate]
  split <;> simp only [] <;> omega

/-- C6 witness: continuing the scenario from width 340 with a south-east
drag of `(-50, 0)` would put the width at 290, so it clamps to 300. -/
theorem se_resize_arithmetic_witness :
    ((340 : Int) + (-50) < 300 ∧ (40 : Int) ≤ 100)
    ∧ (resizeUpdate .se ⟨100, 100, 340, 230⟩ (-50) 0).width = 300 :=
  ⟨⟨by decide, by decide⟩,
    se_resize_arithmetic.2 ⟨100, 100, 340, 230⟩ (-50) 0 (by decide) (by decide)⟩

/-- C8: pinned-note grouping and ordering. For two stored notes created at
timestamps `t1 < t2` (creation id equals creation timestamp, as
`autoSaveNote` assigns both from the same `Date.now()`), pinning both via
the `autoSaveNote` update path — in either order — produces the same
store, and `loadStickyNotes` places both in the pinned group ordered
most-recently-created-or-updated first by `timestamp`: the `t2` note
before the `t1` note, regardless of the order the pinned flags were
assigned. -/
theorem pinned_notes_order (t1 t2 now : Nat) (a b : StickyNote)
    (ht : t1 < t2) (h1 : 0 < t1)
    (haid : a.id = t1) (hats : a.timestamp = t1) (haf : a.isFolder = false)
    (hbid : b.id = t2) (hbts : b.timestamp = t2) (hbf : b.isFolder = false)
    (c1 x1 l1 c2 x2 l2 : String) :
    autoSaveUpdate (autoSaveUpdate [a, b] t1 c1 x1 l1 true) t2 c2 x2 l2 true =
      autoSaveUpdate (autoSaveUpdate [a, b] t2 c2 x2 l2 true) t1 c1 x1 l1 true
    ∧ (loadStickyNotesPinned now
        (autoSaveUpdate (autoSaveUpdate [a, b] t1 c1 x1 l1 true) t2 c2 x2 l2 true)).map
          (fun n => n.timestamp) = [t2, t1]
    ∧ (loadStickyNotesPinned now
        (autoSaveUpdate (autoSaveUpdate [b, a] t1 c1 x1 l1 true) t2 c2 x2 l2 true)).map
          (fun n => n.timestamp) = [t2, t1]
    ∧ ∀ n ∈ loadStickyNotesPinned now
        (autoSaveUpdate (autoSaveUpdate [a, b] t1 c1 x1 l1 true) t2 c2 x2 l2 true),
        n.pinned = true := by
  have hne : t1 ≠ t2 := Nat.ne_of_lt ht
  have hne' : t2 ≠ t1 := Ne.symm hne
  have h1' : t1 ≠ 0 := Nat.pos_iff_ne_zero.mp h1
  have h2' : t2 ≠ 0 := Nat.pos_iff_ne_zero.mp (Nat.lt_trans h1 ht)
  have hnlt : ¬ t2 < t1 := Nat.not_lt.mpr (Nat.le_of_lt ht)
  refine ⟨?_, ?_, ?_, ?_⟩
  · simp [autoSaveUpdate, updateNoteById, haid, hbid, hne, hne']
  · simp [autoSaveUpdate, updateNoteById, loadStickyNotesPinned, ensureTimestamp,
      noteKey, sortDesc, insertDesc, haid, hbid, hats, hbts, haf, hbf,
      hne, hne', h1', h2', hnlt, ht]
  · simp [autoSaveUpdate, updateNoteById, loadStickyNotesPinned, ensureTimestamp,
      noteKey, sortDesc, insertDesc, haid, hbid, hats, hbts, haf, hbf,
      hne, hne', h1', h2', hnlt, ht]
  · simp [autoSaveUpdate, updateNoteById, loadStickyNotesPinned, ensureTimestamp,
      noteKey, sortDesc, insertDesc, haid, hbid, hats, hbts, haf, hbf,
      hne, hne', h1', h2', hnlt, ht]

/-- C8 witness: two concrete pinned notes, pinned in either order, load
newest-first. -/
theorem pinned_notes_order_witness :
    ((5 : Nat) < 9 ∧ (0 : Nat) < 5)
    ∧ (loadStickyNotesPinned 100
        (autoSaveUpdate (autoSaveUpdate
          [⟨5, 5, false, false, "a", "a", "d"⟩, ⟨9, 9, false, false, "b", "b", "d"⟩]
          5 "a2" "a2" "d2" true) 9 "b2" "b2" "d2" true)).map
            (fun n => n.timestamp) = [9, 5] :=
  ⟨⟨by decide, by decide⟩,
    (pinned_notes_order 5 9 100
      ⟨5, 5, false, false, "a", "a", "d"⟩ ⟨9, 9, false, false, "b", "b", "d"⟩
      (by decide) (by decide) rfl rfl rfl rfl rfl rfl
      "a2" "a2" "d2" "b2" "b2" "d2").2.1⟩

/-- C10: mood persistence is corruption-safe. `getMoodData` yields the
empty mapping when the stored value is absent and likewise (through its
catch branch, rather than propagating the exception) when the value is
malformed JSON; and `saveTodaysMood` on a well-formed store sets exactly
today's non-zero-padded `YYYY-M-D` key to the mood index while every other
date key keeps its previous value. In the embedding all these functions
are total, mirroring the try/catch wrappers that keep the JS versions from
throwing. -/
theorem mood_persistence (m : List (String × Nat)) (y mo d idx : Nat) (k : String)
    (hk : k ≠ dateKey y mo d) :
    getMoodData .absent = []
    ∧ getMoodData .malformed = []
    ∧ lookupEntry (getMoodData (saveTodaysMood (.valid m) (dateKey y mo d) idx))
        (dateKey y mo d) = some idx
    ∧ lookupEntry (getMoodData (saveTodaysMood (.valid m) (dateKey y mo d) idx)) k =
        lookupEntry m k :=
  ⟨rfl, rfl, lookupEntry_setEntry_self m _ idx, lookupEntry_setEntry_ne m _ k idx hk⟩

/-- C10 witness: saving mood 4 under the key for 2026-03-05 (month index 2)
keeps the entry already stored for 2026-03-04. -/
theorem mood_persistence_witness :
    ("2026-3-4" ≠ dateKey 2026 2 5)
    ∧ lookupEntry (getMoodData (saveTodaysMood
        (.valid [("2026-3-4", 1)]) (dateKey 2026 2 5) 4)) "2026-3-4" =
        lookupEntry [("2026-3-4", 1)] "2026-3-4" :=
  ⟨by decide,
    (mood_persistence [("2026-3-4", 1)] 2026 2 5 4 "2026-3-4" (by decide)).2.2.2⟩

end PortfolioOS
